import Mathlib

/-!
Verification development for the map viewport engine of the `tripz`
travel-logging application.

The definitions below are shallow embeddings of the Web-Mercator
projection utilities, the viewport and gesture handlers, the
fit-to-bounds initial-view computation, the visible-tile enumeration and
the route-curve geometry implemented in `src/unnamed/part_009`
(`TripDetailMap`) and duplicated in `src/components/map/trip-map.tsx`
(`TripMap`).  JavaScript IEEE-754 numbers are modelled by real numbers,
so floating-point identities claimed "within tolerance" are established
exactly.  The SVG path string returned by `createCurvedPath` is modelled
by a structured value holding the same endpoints and control points.
-/

namespace Tripz

/-- A geographic coordinate, the `{lat, lng}` object of the source. -/
structure LatLng where
  lat : ℝ
  lng : ℝ

/-- A world-pixel coordinate, the `{x, y}` object of the source. -/
structure PixelPoint where
  x : ℝ
  y : ℝ

/-- The Web-Mercator latitude fraction
`(1 - log(tan(latRad) + 1 / cos(latRad)) / PI) / 2` with
`latRad = lat * PI / 180`.  This subexpression appears verbatim in
`latLngToPoint` (part_009 line 21), in the `initialView` bounding-box
footprint (lines 194-195) and in the tile enumeration (line 266). -/
noncomputable def mercY (lat : ℝ) : ℝ :=
  (1 - Real.log (Real.tan (lat * Real.pi / 180)
      + 1 / Real.cos (lat * Real.pi / 180)) / Real.pi) / 2

/-- Embedding of `latLngToPoint(lat, lng, zoom, tileSize = 256)` (part_009 lines 17-23).
Every call site passes the default `tileSize = 256`, inlined here. -/
noncomputable def latLngToPoint (lat lng zoom : ℝ) : PixelPoint :=
  let scale := (2 : ℝ) ^ zoom * 256
  { x := ((lng + 180) / 360) * scale
    y := mercY lat * scale }

/-- Embedding of `pointToLatLng(x, y, zoom, tileSize = 256)` (part_009 lines 25-31). -/
noncomputable def pointToLatLng (x y zoom : ℝ) : LatLng :=
  let scale := (2 : ℝ) ^ zoom * 256
  let n := Real.pi - (2 * Real.pi * y) / scale
  { lat := (180 / Real.pi) * Real.arctan (0.5 * (Real.exp n - Real.exp (-n)))
    lng := (x / scale) * 360 - 180 }

lemma scale_pos (zoom : ℝ) : (0 : ℝ) < (2 : ℝ) ^ zoom * 256 :=
  mul_pos (Real.rpow_pos_of_pos two_pos zoom) (by norm_num)

lemma mercY_zero : mercY 0 = 1 / 2 := by
  unfold mercY
  rw [zero_mul, zero_div, Real.tan_zero, Real.cos_zero]
  norm_num

lemma mercY_arctan_sinh (n : ℝ) :
    mercY ((180 / Real.pi) * Real.arctan (Real.sinh n)) = (1 - n / Real.pi) / 2 := by
  have hπ : Real.pi ≠ 0 := Real.pi_ne_zero
  have hrad : (180 / Real.pi) * Real.arctan (Real.sinh n) * Real.pi / 180
      = Real.arctan (Real.sinh n) := by
    field_simp
  unfold mercY
  rw [hrad, Real.tan_arctan, Real.cos_arctan]
  have h1 : Real.sqrt (1 + Real.sinh n ^ 2) = Real.cosh n := by
    rw [show (1 + Real.sinh n ^ 2) = Real.cosh n ^ 2 by rw [Real.cosh_sq]; ring]
    exact Real.sqrt_sq (le_of_lt (Real.cosh_pos n))
  rw [h1, one_div_one_div, Real.sinh_add_cosh, Real.log_exp]

lemma pointToLatLng_lat_eq (x y zoom : ℝ) :
    (pointToLatLng x y zoom).lat
      = (180 / Real.pi) * Real.arctan
          (Real.sinh (Real.pi - (2 * Real.pi * y) / ((2 : ℝ) ^ zoom * 256))) := by
  simp only [pointToLatLng]
  rw [Real.sinh_eq]
  congr 2
  ring

/-- The Mercator y-fraction of the unprojected latitude recovers the pixel
`y` at every zoom; the core of the `project` / `unproject` inversion. -/
lemma mercY_pointToLatLng (x y zoom : ℝ) :
    mercY (pointToLatLng x y zoom).lat * ((2 : ℝ) ^ zoom * 256) = y := by
  have hs : ((2 : ℝ) ^ zoom * 256) ≠ 0 := ne_of_gt (scale_pos zoom)
  have hπ : Real.pi ≠ 0 := Real.pi_ne_zero
  rw [pointToLatLng_lat_eq, mercY_arctan_sinh]
  field_simp
  ring

/-- Applying `latLngToPoint` after `pointToLatLng` restores every world-pixel point
exactly, at every zoom.  This holds unconditionally. -/
lemma latLngToPoint_pointToLatLng (x y zoom : ℝ) :
    latLngToPoint (pointToLatLng x y zoom).lat (pointToLatLng x y zoom).lng zoom
      = ⟨x, y⟩ := by
  have hs : ((2 : ℝ) ^ zoom * 256) ≠ 0 := ne_of_gt (scale_pos zoom)
  have hy := mercY_pointToLatLng x y zoom
  simp only [latLngToPoint, pointToLatLng, PixelPoint.mk.injEq]
  constructor
  · field_simp
    ring
  · exact hy

/-- Applying `pointToLatLng` after `latLngToPoint` restores every geographic point
with latitude strictly inside (-90, 90), exactly. -/
lemma pointToLatLng_latLngToPoint (lat lng zoom : ℝ)
    (h1 : -90 < lat) (h2 : lat < 90) :
    pointToLatLng (latLngToPoint lat lng zoom).x (latLngToPoint lat lng zoom).y zoom
      = ⟨lat, lng⟩ := by
  have hs : ((2 : ℝ) ^ zoom * 256) ≠ 0 := ne_of_gt (scale_pos zoom)
  have hπ : (0 : ℝ) < Real.pi := Real.pi_pos
  set φ := lat * Real.pi / 180 with hφdef
  have hφ1 : -(Real.pi / 2) < φ := by
    rw [hφdef]
    nlinarith
  have hφ2 : φ < Real.pi / 2 := by
    rw [hφdef]
    nlinarith
  have hcos : (0 : ℝ) < Real.cos φ := Real.cos_pos_of_mem_Ioo ⟨hφ1, hφ2⟩
  have hsin : (-1 : ℝ) < Real.sin φ := by
    have := Real.sin_lt_sin_of_lt_of_le_pi_div_two (le_refl (-(Real.pi / 2)))
      (le_of_lt hφ2) hφ1
    rwa [Real.sin_neg, Real.sin_pi_div_two] at this
  have hT : (0 : ℝ) < Real.tan φ + 1 / Real.cos φ := by
    rw [Real.tan_eq_sin_div_cos]
    have : Real.sin φ / Real.cos φ + 1 / Real.cos φ = (Real.sin φ + 1) / Real.cos φ := by
      ring
    rw [this]
    exact div_pos (by linarith) hcos
  have hprod : (Real.tan φ + 1 / Real.cos φ) * (1 / Real.cos φ - Real.tan φ) = 1 := by
    rw [Real.tan_eq_sin_div_cos]
    field_simp
    nlinarith [Real.sin_sq_add_cos_sq φ]
  have hinv : (Real.tan φ + 1 / Real.cos φ)⁻¹ = 1 / Real.cos φ - Real.tan φ :=
    inv_eq_of_mul_eq_one_right hprod
  -- the intermediate value `n` computed by pointToLatLng on the projected y
  have hn : Real.pi - (2 * Real.pi * ((latLngToPoint lat lng zoom).y))
        / ((2 : ℝ) ^ zoom * 256)
      = Real.log (Real.tan φ + 1 / Real.cos φ) := by
    simp only [latLngToPoint, mercY, hφdef]
    field_simp
    ring
  simp only [pointToLatLng, LatLng.mk.injEq]
  constructor
  · rw [hn, Real.exp_log hT, Real.exp_neg, Real.exp_log hT, hinv]
    have harg : (0.5 : ℝ) * (Real.tan φ + 1 / Real.cos φ - (1 / Real.cos φ - Real.tan φ))
        = Real.tan φ := by
      ring
    rw [harg, Real.arctan_tan hφ1 hφ2, hφdef]
    field_simp
    ring
  · simp only [latLngToPoint]
    field_simp
    ring

/-- C1: for every latitude strictly inside (-85, 85), every longitude in
[-180, 180] and every zoom in [3, 12], unprojecting the projection of the
point at that zoom returns the original point within 1e-6 degrees.  The
real-number embedding shows the round trip is exact. -/
theorem projection_round_trip (lat lng zoom : ℝ)
    (hlat1 : -85 < lat) (hlat2 : lat < 85)
    (hlng1 : -180 ≤ lng) (hlng2 : lng ≤ 180)
    (hz1 : 3 ≤ zoom) (hz2 : zoom ≤ 12) :
    |(pointToLatLng (latLngToPoint lat lng zoom).x
        (latLngToPoint lat lng zoom).y zoom).lat - lat| ≤ 1 / 1000000 ∧
    |(pointToLatLng (latLngToPoint lat lng zoom).x
        (latLngToPoint lat lng zoom).y zoom).lng - lng| ≤ 1 / 1000000 := by
  have h := pointToLatLng_latLngToPoint lat lng zoom (by linarith) (by linarith)
  rw [h]
  norm_num

/-- Witness for C1 at the concrete input lat = 0, lng = 0, zoom = 3. -/
theorem projection_round_trip_witness :
    ((-85 : ℝ) < 0 ∧ (0 : ℝ) < 85 ∧ (-180 : ℝ) ≤ 0 ∧ (0 : ℝ) ≤ 180 ∧
      (3 : ℝ) ≤ 3 ∧ (3 : ℝ) ≤ 12) ∧
    |(pointToLatLng (latLngToPoint 0 0 3).x (latLngToPoint 0 0 3).y 3).lat - 0|
        ≤ 1 / 1000000 ∧
    |(pointToLatLng (latLngToPoint 0 0 3).x (latLngToPoint 0 0 3).y 3).lng - 0|
        ≤ 1 / 1000000 :=
  ⟨by norm_num,
    projection_round_trip 0 0 3 (by norm_num) (by norm_num) (by norm_num)
      (by norm_num) (by norm_num) (by norm_num)⟩

/-- The viewport owned by a mounted map component: the `center` and `zoom`
React state (part_009 lines 222-226). -/
structure MapState where
  center : LatLng
  zoom : ℝ

/-- Embedding of `handleZoomIn` (part_009 line 298): `z => Math.min(z + 1, 12)`. -/
noncomputable def handleZoomIn (z : ℝ) : ℝ := min (z + 1) 12

/-- Embedding of `handleZoomOut` (part_009 line 299): `z => Math.max(z - 1, 3)`. -/
noncomputable def handleZoomOut (z : ℝ) : ℝ := max (z - 1) 3

/-- The new zoom computed by `handleWheel` (part_009 lines 372-373):
`zoomDelta = e.deltaY > 0 ? -1 : 1` and
`Math.max(3, Math.min(12, zoom + zoomDelta))`. -/
noncomputable def wheelNewZoom (z deltaY : ℝ) : ℝ :=
  max 3 (min 12 (z + if deltaY > 0 then -1 else 1))

/-- The new zoom computed by the pinch branch of `handleTouchMove`
(part_009 lines 485-487): `scale = currentDistance / initialPinchDistance`,
`zoomDelta = Math.log2(scale)`,
`Math.max(3, Math.min(12, initialZoom + zoomDelta))`. -/
noncomputable def pinchNewZoom (z0 d0 d1 : ℝ) : ℝ :=
  max 3 (min 12 (z0 + Real.logb 2 (d1 / d0)))

/-- One zoom-changing user operation of the gesture controller. -/
inductive ZoomOp where
  | zoomIn : ZoomOp
  | zoomOut : ZoomOp
  | wheel (deltaY : ℝ) : ZoomOp
  | pinch (d0 d1 : ℝ) : ZoomOp

/-- The zoom produced by one operation applied at zoom `z`. -/
noncomputable def applyZoomOp (z : ℝ) : ZoomOp → ℝ
  | ZoomOp.zoomIn => handleZoomIn z
  | ZoomOp.zoomOut => handleZoomOut z
  | ZoomOp.wheel deltaY => wheelNewZoom z deltaY
  | ZoomOp.pinch d0 d1 => pinchNewZoom z d0 d1

/-- The zoom produced by a sequence of operations applied left to right. -/
noncomputable def applyZoomOps (z : ℝ) (ops : List ZoomOp) : ℝ :=
  ops.foldl applyZoomOp z

/-- C2: for every sequence of zoom operations (zoomIn, zoomOut, wheel
zoom, pinch zoom) applied from any zoom in [3, 12], the resulting zoom
stays within [3, 12], regardless of the magnitude or sign of the
requested deltas. -/
theorem zoom_stays_clamped (ops : List ZoomOp) (z : ℝ)
    (h1 : 3 ≤ z) (h2 : z ≤ 12) :
    3 ≤ applyZoomOps z ops ∧ applyZoomOps z ops ≤ 12 := by
  induction ops generalizing z with
  | nil => exact ⟨h1, h2⟩
  | cons op ops ih =>
    have hstep : 3 ≤ applyZoomOp z op ∧ applyZoomOp z op ≤ 12 := by
      cases op with
      | zoomIn =>
        simp only [applyZoomOp, handleZoomIn]
        exact ⟨le_min (by linarith) (by norm_num), min_le_right _ _⟩
      | zoomOut =>
        simp only [applyZoomOp, handleZoomOut]
        exact ⟨le_max_right _ _, max_le (by linarith) (by norm_num)⟩
      | wheel deltaY =>
        simp only [applyZoomOp, wheelNewZoom]
        exact ⟨le_max_left _ _, max_le (by norm_num) (min_le_left _ _)⟩
      | pinch d0 d1 =>
        simp only [applyZoomOp, pinchNewZoom]
        exact ⟨le_max_left _ _, max_le (by norm_num) (min_le_left _ _)⟩
    exact ih (applyZoomOp z op) hstep.1 hstep.2

/-- Witness for C2: a concrete operation sequence applied from zoom 5. -/
theorem zoom_stays_clamped_witness :
    ((3 : ℝ) ≤ 5 ∧ (5 : ℝ) ≤ 12) ∧
    3 ≤ applyZoomOps 5
        [ZoomOp.zoomIn, ZoomOp.wheel 1, ZoomOp.pinch 100 200, ZoomOp.zoomOut] ∧
    applyZoomOps 5
        [ZoomOp.zoomIn, ZoomOp.wheel 1, ZoomOp.pinch 100 200, ZoomOp.zoomOut] ≤ 12 :=
  ⟨by norm_num,
    zoom_stays_clamped [ZoomOp.zoomIn, ZoomOp.wheel 1, ZoomOp.pinch 100 200,
      ZoomOp.zoomOut] 5 (by norm_num) (by norm_num)⟩

/-- Embedding of `projectPoint(lat, lng)` (part_009 lines 242-251): the screen position
of a geographic point, i.e. its world pixel minus the center's world pixel
plus half the container size. -/
noncomputable def projectPoint (s : MapState) (w h lat lng : ℝ) : PixelPoint :=
  { x := (latLngToPoint lat lng s.zoom).x
      - (latLngToPoint s.center.lat s.center.lng s.zoom).x + w / 2
    y := (latLngToPoint lat lng s.zoom).y
      - (latLngToPoint s.center.lat s.center.lng s.zoom).y + h / 2 }

/-- The geographic point rendered at screen position `(sx, sy)`:
`pointToLatLng(sx - w/2 + centerPoint.x, sy - h/2 + centerPoint.y, zoom)`,
the anchor expression of `handleWheel` (part_009 lines 364-369) and of the
pinch branch of `handleTouchMove` (lines 490-496). -/
noncomputable def geoAtScreen (s : MapState) (w h sx sy : ℝ) : LatLng :=
  pointToLatLng (sx - w / 2 + (latLngToPoint s.center.lat s.center.lng s.zoom).x)
    (sy - h / 2 + (latLngToPoint s.center.lat s.center.lng s.zoom).y) s.zoom

/-- Embedding of `handleWheel` (part_009 lines 355-385): wheel zoom anchored at the
mouse position; the state is unchanged when the clamped zoom does not
change. -/
noncomputable def handleWheel (s : MapState) (w h mouseX mouseY deltaY : ℝ) : MapState :=
  let mouseLatLng := geoAtScreen s w h mouseX mouseY
  let newZoom := wheelNewZoom s.zoom deltaY
  if newZoom ≠ s.zoom then
    let newCenterPoint := latLngToPoint mouseLatLng.lat mouseLatLng.lng newZoom
    { center := pointToLatLng (newCenterPoint.x - (mouseX - w / 2))
        (newCenterPoint.y - (mouseY - h / 2)) newZoom
      zoom := newZoom }
  else s

/-- After a wheel event the geographic point that was under the mouse is at
exactly the same screen position as before; holds in both branches. -/
lemma handleWheel_anchor (s : MapState) (w h mouseX mouseY deltaY : ℝ) :
    projectPoint (handleWheel s w h mouseX mouseY deltaY) w h
      (geoAtScreen s w h mouseX mouseY).lat (geoAtScreen s w h mouseX mouseY).lng
    = ⟨mouseX, mouseY⟩ := by
  by_cases hc : wheelNewZoom s.zoom deltaY ≠ s.zoom
  · simp only [handleWheel, if_pos hc, projectPoint]
    rw [latLngToPoint_pointToLatLng]
    simp only [PixelPoint.mk.injEq]
    constructor <;> ring
  · simp only [handleWheel, if_neg hc, projectPoint, geoAtScreen]
    rw [latLngToPoint_pointToLatLng]
    simp only [PixelPoint.mk.injEq]
    constructor <;> ring

/-- C3: for every viewport state with zoom in [3, 12], every anchor screen
point inside the container and every wheel-zoom step, the geographic point
that was under the anchor before the zoom change is still under the anchor
after it, within 1 pixel (the embedding shows the screen position is
preserved exactly). -/
theorem wheel_zoom_to_cursor (s : MapState) (w h mouseX mouseY deltaY : ℝ)
    (hz1 : 3 ≤ s.zoom) (hz2 : s.zoom ≤ 12)
    (hx1 : 0 ≤ mouseX) (hx2 : mouseX ≤ w)
    (hy1 : 0 ≤ mouseY) (hy2 : mouseY ≤ h) :
    |(projectPoint (handleWheel s w h mouseX mouseY deltaY) w h
        (geoAtScreen s w h mouseX mouseY).lat
        (geoAtScreen s w h mouseX mouseY).lng).x - mouseX| ≤ 1 ∧
    |(projectPoint (handleWheel s w h mouseX mouseY deltaY) w h
        (geoAtScreen s w h mouseX mouseY).lat
        (geoAtScreen s w h mouseX mouseY).lng).y - mouseY| ≤ 1 := by
  rw [handleWheel_anchor]
  norm_num

/-- Witness for C3 at a concrete state, container and mouse position. -/
theorem wheel_zoom_to_cursor_witness :
    ((3 : ℝ) ≤ 5 ∧ (5 : ℝ) ≤ 12 ∧ (0 : ℝ) ≤ 100 ∧ (100 : ℝ) ≤ 800 ∧
      (100 : ℝ) ≤ 600) ∧
    |(projectPoint (handleWheel ⟨⟨0, 0⟩, 5⟩ 800 600 100 100 (-1)) 800 600
        (geoAtScreen ⟨⟨0, 0⟩, 5⟩ 800 600 100 100).lat
        (geoAtScreen ⟨⟨0, 0⟩, 5⟩ 800 600 100 100).lng).x - 100| ≤ 1 ∧
    |(projectPoint (handleWheel ⟨⟨0, 0⟩, 5⟩ 800 600 100 100 (-1)) 800 600
        (geoAtScreen ⟨⟨0, 0⟩, 5⟩ 800 600 100 100).lat
        (geoAtScreen ⟨⟨0, 0⟩, 5⟩ 800 600 100 100).lng).y - 100| ≤ 1 :=
  ⟨by norm_num,
    wheel_zoom_to_cursor ⟨⟨0, 0⟩, 5⟩ 800 600 100 100 (-1) (by norm_num)
      (by norm_num) (by norm_num) (by norm_num) (by norm_num) (by norm_num)⟩

/-- The pinch branch of `handleTouchMove` (part_009 lines 472-507): a
two-finger move with captured baseline distance `d0`, snapshot zoom `z0`,
snapshot center `c0` and captured pinch midpoint `(pinchX, pinchY)` in
container coordinates; `d1` is the current inter-finger distance.  When
the clamped target zoom equals the snapshot zoom nothing is updated. -/
noncomputable def handlePinchMove (s : MapState) (z0 : ℝ) (c0 : LatLng)
    (pinchX pinchY d0 d1 w h : ℝ) : MapState :=
  let newZoom := pinchNewZoom z0 d0 d1
  if newZoom ≠ z0 then
    let mouseLatLng := geoAtScreen ⟨c0, z0⟩ w h pinchX pinchY
    let newCenterPoint := latLngToPoint mouseLatLng.lat mouseLatLng.lng newZoom
    { center := pointToLatLng (newCenterPoint.x - (pinchX - w / 2))
        (newCenterPoint.y - (pinchY - h / 2)) newZoom
      zoom := newZoom }
  else s

/-- C6 counterexample: mid-gesture the viewport is at zoom 6 while the
snapshot zoom is 5; the fingers return exactly to the baseline distance,
so the claimed resulting zoom is `5 + log2(1) = 5`, but the handler's
`newZoom !== initialZoom` guard skips the update and the zoom stays 6. -/
theorem pinch_zoom_formula_counterexample :
    (handlePinchMove ⟨⟨0, 0⟩, 6⟩ 5 ⟨0, 0⟩ 0 0 100 100 800 600).zoom = 6 ∧
    pinchNewZoom 5 100 100 = 5 := by
  have hz : pinchNewZoom 5 100 100 = 5 := by
    unfold pinchNewZoom
    rw [show (100 : ℝ) / 100 = 1 by norm_num, Real.logb_one]
    norm_num
  constructor
  · simp only [handlePinchMove]
    rw [if_neg (by simp [hz])]
  · exact hz

/-- C6 amended: when the clamped target zoom `z0 + log2(d1/d0)` differs
from the snapshot zoom `z0`, the pinch handler sets exactly that zoom —
computed from the snapshot, not incrementally — and keeps the geographic
point that was under the captured midpoint in the snapshot state exactly
under the midpoint; when the clamped target equals the snapshot zoom, the
event leaves the viewport unchanged. -/
theorem pinch_zoom_snapshot (s : MapState) (z0 : ℝ) (c0 : LatLng)
    (pinchX pinchY d0 d1 w h : ℝ) :
    (pinchNewZoom z0 d0 d1 ≠ z0 →
      (handlePinchMove s z0 c0 pinchX pinchY d0 d1 w h).zoom
          = pinchNewZoom z0 d0 d1 ∧
      projectPoint (handlePinchMove s z0 c0 pinchX pinchY d0 d1 w h) w h
          (geoAtScreen ⟨c0, z0⟩ w h pinchX pinchY).lat
          (geoAtScreen ⟨c0, z0⟩ w h pinchX pinchY).lng = ⟨pinchX, pinchY⟩) ∧
    (pinchNewZoom z0 d0 d1 = z0 →
      handlePinchMove s z0 c0 pinchX pinchY d0 d1 w h = s) := by
  constructor
  · intro hne
    constructor
    · simp only [handlePinchMove, if_pos hne]
    · simp only [handlePinchMove, if_pos hne, projectPoint]
      rw [latLngToPoint_pointToLatLng]
      simp only [PixelPoint.mk.injEq]
      constructor <;> ring
  · intro heq
    simp only [handlePinchMove]
    rw [if_neg (by simp [heq])]

/-- Witness for C6: touches moving from 100px to 200px apart with snapshot
zoom 5 yield zoom `5 + log2(2) = 6`. -/
theorem pinch_zoom_snapshot_witness :
    pinchNewZoom 5 100 200 ≠ 5 ∧
    (handlePinchMove ⟨⟨0, 0⟩, 5⟩ 5 ⟨0, 0⟩ 0 0 100 200 800 600).zoom = 6 := by
  have h6 : pinchNewZoom 5 100 200 = 6 := by
    unfold pinchNewZoom
    rw [show (200 : ℝ) / 100 = 2 by norm_num,
      Real.logb_self_eq_one (by norm_num : (1 : ℝ) < 2)]
    norm_num
  have hne : pinchNewZoom 5 100 200 ≠ 5 := by rw [h6]; norm_num
  refine ⟨hne, ?_⟩
  rw [((pinch_zoom_snapshot ⟨⟨0, 0⟩, 5⟩ 5 ⟨0, 0⟩ 0 0 100 200 800 600).1 hne).1, h6]

/-- The path value returned by `createCurvedPath`: the `M..L`, `M..Q` and
`M..C` SVG path strings of the source are modelled by structured values
holding the same endpoints and control points. -/
inductive SvgPath where
  | line (p q : PixelPoint) : SvgPath
  | quad (p c q : PixelPoint) : SvgPath
  | cubic (p c1 c2 q : PixelPoint) : SvgPath

/-- The boat branch of `createCurvedPath` (part_009 lines 55-109): a cubic
with two control points, curve direction chosen from the leg's geographic
deltas and midpoint latitude. -/
noncomputable def boatPath (p q : PixelPoint)
    (fromLat fromLng toLat toLng : ℝ) : SvgPath :=
  let dx := q.x - p.x
  let dy := q.y - p.y
  let distance := Real.sqrt (dx * dx + dy * dy)
  let midLat := (fromLat + toLat) / 2
  let dLng := toLng - fromLng
  let dLat := toLat - fromLat
  let curveDirection : ℝ :=
    if |dLng| > |dLat| then (if midLat > 0 then -1 else 1) else 1
  let perpX := -dy / distance
  let perpY := dx / distance
  let perpDirX := perpX * curveDirection
  let perpDirY := perpY * curveDirection
  let curveAmount := distance * 0.25
  SvgPath.cubic p
    ⟨p.x + dx * 0.33 + perpDirX * curveAmount * 0.7,
      p.y + dy * 0.33 + perpDirY * curveAmount * 0.7⟩
    ⟨p.x + dx * 0.67 + perpDirX * curveAmount * 0.8,
      p.y + dy * 0.67 + perpDirY * curveAmount * 0.8⟩ q

/-- The default branch of `createCurvedPath` (part_009 lines 112-128): a
quadratic with one perpendicular-offset control point, factor 0.15 for
plane legs and 0.12 otherwise. -/
noncomputable def quadPath (p q : PixelPoint) (isPlane : Bool) : SvgPath :=
  let dx := q.x - p.x
  let dy := q.y - p.y
  let distance := Real.sqrt (dx * dx + dy * dy)
  let curveFactor : ℝ := if isPlane then 0.15 else 0.12
  let curveAmount := distance * curveFactor
  let perpX := -dy / distance
  let perpY := dx / distance
  SvgPath.quad p
    ⟨(p.x + q.x) / 2 + perpX * curveAmount, (p.y + q.y) / 2 + perpY * curveAmount⟩ q

/-- Embedding of `createCurvedPath(from, to, isPlane, isBoat, fromLat, fromLng, toLat,
toLng, _zoom)` (part_009 lines 34-129).  The four optional geographic
arguments are modelled as one optional tuple; `_zoom` is unused by the
source and omitted. -/
noncomputable def createCurvedPath (p q : PixelPoint) (isPlane isBoat : Bool)
    (geo : Option (ℝ × ℝ × ℝ × ℝ)) : SvgPath :=
  let dx := q.x - p.x
  let dy := q.y - p.y
  let distance := Real.sqrt (dx * dx + dy * dy)
  if distance < 1 then SvgPath.line p q
  else
    match isBoat, geo with
    | true, some (fromLat, fromLng, toLat, toLng) => boatPath p q fromLat fromLng toLat toLng
    | _, _ => quadPath p q isPlane

/-- C9: when the two endpoints are less than 1 pixel apart,
`createCurvedPath` returns the degenerate straight segment, so the
perpendicular-offset computation that divides by the distance is never
reached with a near-zero divisor; the function is total by construction
and has no other special case. -/
theorem curved_path_degenerate (p q : PixelPoint) (isPlane isBoat : Bool)
    (geo : Option (ℝ × ℝ × ℝ × ℝ))
    (hd : Real.sqrt ((q.x - p.x) * (q.x - p.x) + (q.y - p.y) * (q.y - p.y)) < 1) :
    createCurvedPath p q isPlane isBoat geo = SvgPath.line p q := by
  simp only [createCurvedPath]
  rw [if_pos hd]

/-- Witness for C9 at coincident endpoints. -/
theorem curved_path_degenerate_witness :
    Real.sqrt (((0 : ℝ) - 0) * ((0 : ℝ) - 0) + ((0 : ℝ) - 0) * ((0 : ℝ) - 0)) < 1 ∧
    createCurvedPath ⟨0, 0⟩ ⟨0, 0⟩ false false none = SvgPath.line ⟨0, 0⟩ ⟨0, 0⟩ := by
  have h : Real.sqrt (((0 : ℝ) - 0) * ((0 : ℝ) - 0) + ((0 : ℝ) - 0) * ((0 : ℝ) - 0)) < 1 := by
    rw [show ((0 : ℝ) - 0) * ((0 : ℝ) - 0) + ((0 : ℝ) - 0) * ((0 : ℝ) - 0) = 0 by ring,
      Real.sqrt_zero]
    norm_num
  exact ⟨h, curved_path_degenerate ⟨0, 0⟩ ⟨0, 0⟩ false false none h⟩

/-- The screen-space perpendicular y-offset of the first cubic control
point relative to the corresponding point of the straight segment (the
"perpendicular Y in screen space" of the spec); 0 for non-cubic paths. -/
noncomputable def controlOffsetY : SvgPath → ℝ
  | SvgPath.cubic p c1 _ q => c1.y - (p.y + (q.y - p.y) * 0.33)
  | _ => 0

/-- The screen-space perpendicular x-offset of the first cubic control
point relative to the corresponding point of the straight segment
(positive means the curve bends toward larger screen x, i.e. eastward);
0 for non-cubic paths. -/
noncomputable def controlOffsetX : SvgPath → ℝ
  | SvgPath.cubic p c1 _ q => c1.x - (p.x + (q.x - p.x) * 0.33)
  | _ => 0

/-- For non-coincident endpoints the boat case of `createCurvedPath`
reduces to `boatPath`. -/
lemma createCurvedPath_boat (p q : PixelPoint) (isPlane : Bool)
    (fromLat fromLng toLat toLng : ℝ)
    (hd : ¬ Real.sqrt ((q.x - p.x) * (q.x - p.x) + (q.y - p.y) * (q.y - p.y)) < 1) :
    createCurvedPath p q isPlane true (some (fromLat, fromLng, toLat, toLng))
      = boatPath p q fromLat fromLng toLat toLng := by
  simp only [createCurvedPath]
  rw [if_neg hd]

/-- For a mostly east-west boat leg with positive midpoint latitude the
source picks `curveDirection = -1`, so the first control point's
perpendicular y-offset is `-(dx/distance) * (distance*0.25) * 0.7 =
-0.175 * dx`. -/
lemma boatPath_controlOffsetY (p q : PixelPoint) (fromLat fromLng toLat toLng : ℝ)
    (hEW : |toLng - fromLng| > |toLat - fromLat|)
    (hmid : 0 < (fromLat + toLat) / 2)
    (hD : Real.sqrt ((q.x - p.x) * (q.x - p.x) + (q.y - p.y) * (q.y - p.y)) ≠ 0) :
    controlOffsetY (boatPath p q fromLat fromLng toLat toLng)
      = -(0.175 : ℝ) * (q.x - p.x) := by
  simp only [boatPath, controlOffsetY]
  rw [if_pos hEW, if_pos hmid]
  field_simp
  ring

/-- For a mostly east-west boat leg with non-positive midpoint latitude
the source picks `curveDirection = 1`, so the first control point's
perpendicular y-offset is `(dx/distance) * (distance*0.25) * 0.7 =
0.175 * dx`. -/
lemma boatPath_controlOffsetY_nonpos_mid (p q : PixelPoint)
    (fromLat fromLng toLat toLng : ℝ)
    (hEW : |toLng - fromLng| > |toLat - fromLat|)
    (hmid : ¬ 0 < (fromLat + toLat) / 2)
    (hD : Real.sqrt ((q.x - p.x) * (q.x - p.x) + (q.y - p.y) * (q.y - p.y)) ≠ 0) :
    controlOffsetY (boatPath p q fromLat fromLng toLat toLng)
      = (0.175 : ℝ) * (q.x - p.x) := by
  simp only [boatPath, controlOffsetY]
  rw [if_pos hEW, if_neg hmid]
  field_simp
  ring

/-- For a mostly north-south boat leg the source picks
`curveDirection = 1`, so the first control point's perpendicular x-offset
is `(-dy/distance) * (distance*0.25) * 0.7 = -0.175 * dy`. -/
lemma boatPath_controlOffsetX_ns (p q : PixelPoint)
    (fromLat fromLng toLat toLng : ℝ)
    (hNS : ¬ |toLng - fromLng| > |toLat - fromLat|)
    (hD : Real.sqrt ((q.x - p.x) * (q.x - p.x) + (q.y - p.y) * (q.y - p.y)) ≠ 0) :
    controlOffsetX (boatPath p q fromLat fromLng toLat toLng)
      = -(0.175 : ℝ) * (q.y - p.y) := by
  simp only [boatPath, controlOffsetX]
  rw [if_neg hNS]
  field_simp
  ring

/-- C5 amended: for every boat leg with non-coincident projected
endpoints, `createCurvedPath` deterministically produces the cubic
`boatPath`, and each of the claim's three direction rules holds only
relative to the projected travel direction of the leg: a mostly east-west
leg (`|dLng| > |dLat|`) with positive midpoint latitude gets screen-Y
control offset `-0.175 * dx`, negative ("south" in the spec's negative-Y
gloss) exactly when the leg runs eastbound on screen (`dx > 0`); a mostly
east-west leg with non-positive midpoint latitude gets screen-Y offset
`0.175 * dx`, positive ("north") exactly when the leg runs eastbound; and
a mostly north-south leg gets screen-X offset `-0.175 * dy`, positive
("eastward") exactly when the leg runs upward on screen (`dy < 0`, a
northbound leg).  In particular the eastbound leg from (40N, 0) to
(40N, 60E) gets a negative perpendicular-Y offset. -/
theorem boat_curve_direction (p q : PixelPoint) (isPlane : Bool)
    (fromLat fromLng toLat toLng : ℝ)
    (hd : ¬ Real.sqrt ((q.x - p.x) * (q.x - p.x) + (q.y - p.y) * (q.y - p.y)) < 1) :
    createCurvedPath p q isPlane true (some (fromLat, fromLng, toLat, toLng))
        = boatPath p q fromLat fromLng toLat toLng ∧
    (|toLng - fromLng| > |toLat - fromLat| → 0 < (fromLat + toLat) / 2 →
      controlOffsetY (createCurvedPath p q isPlane true (some (fromLat, fromLng, toLat, toLng)))
          = -(0.175 : ℝ) * (q.x - p.x) ∧
      (controlOffsetY (createCurvedPath p q isPlane true (some (fromLat, fromLng, toLat, toLng))) < 0
          ↔ 0 < q.x - p.x)) ∧
    (|toLng - fromLng| > |toLat - fromLat| → ¬ 0 < (fromLat + toLat) / 2 →
      controlOffsetY (createCurvedPath p q isPlane true (some (fromLat, fromLng, toLat, toLng)))
          = (0.175 : ℝ) * (q.x - p.x) ∧
      (0 < controlOffsetY (createCurvedPath p q isPlane true (some (fromLat, fromLng, toLat, toLng)))
          ↔ 0 < q.x - p.x)) ∧
    (¬ |toLng - fromLng| > |toLat - fromLat| →
      controlOffsetX (createCurvedPath p q isPlane true (some (fromLat, fromLng, toLat, toLng)))
          = -(0.175 : ℝ) * (q.y - p.y) ∧
      (0 < controlOffsetX (createCurvedPath p q isPlane true (some (fromLat, fromLng, toLat, toLng)))
          ↔ q.y - p.y < 0)) := by
  have hD : Real.sqrt ((q.x - p.x) * (q.x - p.x) + (q.y - p.y) * (q.y - p.y)) ≠ 0 := by
    intro h0
    rw [h0] at hd
    exact hd (by norm_num)
  have heq := createCurvedPath_boat p q isPlane fromLat fromLng toLat toLng hd
  refine ⟨heq, ?_, ?_, ?_⟩
  · intro hEW hmid
    have hoff := boatPath_controlOffsetY p q fromLat fromLng toLat toLng hEW hmid hD
    refine ⟨by rw [heq, hoff], ?_⟩
    rw [heq, hoff]
    constructor
    · intro hlt
      nlinarith
    · intro hgt
      nlinarith
  · intro hEW hmid
    have hoff := boatPath_controlOffsetY_nonpos_mid p q fromLat fromLng toLat toLng hEW hmid hD
    refine ⟨by rw [heq, hoff], ?_⟩
    rw [heq, hoff]
    constructor
    · intro hlt
      nlinarith
    · intro hgt
      nlinarith
  · intro hNS
    have hoff := boatPath_controlOffsetX_ns p q fromLat fromLng toLat toLng hNS hD
    refine ⟨by rw [heq, hoff], ?_⟩
    rw [heq, hoff]
    constructor
    · intro hlt
      nlinarith
    · intro hgt
      nlinarith

/-- C5 counterexample, refuting each of the claim's three direction
conjuncts at a concrete leg projected at zoom 3.  First, the westbound
east-west leg (40N, 60E) to (40N, 0) has positive midpoint latitude yet a
positive screen-Y control offset, not the claimed negative ("south").
Second, the westbound east-west leg (40S, 60E) to (40S, 0) has negative
midpoint latitude yet a negative screen-Y offset, not the claimed
positive ("north").  Third, the southbound north-south leg (30N, 0) to
(0, 0) has a negative screen-X offset (westward), not the claimed
positive ("eastward").  The bend direction flips with the travel
direction in every branch. -/
theorem boat_curve_direction_counterexample :
    (|(0 : ℝ) - 60| > |(40 : ℝ) - 40| ∧ 0 < ((40 : ℝ) + 40) / 2 ∧
      0 < controlOffsetY (createCurvedPath (latLngToPoint 40 60 3) (latLngToPoint 40 0 3)
          false true (some (40, 60, 40, 0)))) ∧
    (|(0 : ℝ) - 60| > |(-40 : ℝ) - (-40)| ∧ ((-40 : ℝ) + (-40)) / 2 < 0 ∧
      controlOffsetY (createCurvedPath (latLngToPoint (-40) 60 3) (latLngToPoint (-40) 0 3)
          false true (some (-40, 60, -40, 0))) < 0) ∧
    (¬ |(0 : ℝ) - 0| > |(0 : ℝ) - 30| ∧
      controlOffsetX (createCurvedPath (latLngToPoint 30 0 3) (latLngToPoint 0 0 3)
          false true (some (30, 0, 0, 0))) < 0) := by
  have hrpow : (2 : ℝ) ^ (3 : ℝ) = 8 := by
    rw [show (3 : ℝ) = ((3 : ℕ) : ℝ) by norm_num, Real.rpow_natCast]
    norm_num
  have hπ0 : (0 : ℝ) < Real.pi := Real.pi_pos
  have hπne : Real.pi ≠ 0 := Real.pi_ne_zero
  refine ⟨⟨by norm_num, by norm_num, ?_⟩, ⟨by norm_num, by norm_num, ?_⟩,
    ⟨by norm_num, ?_⟩⟩
  · -- westbound east-west leg at 40N: positive screen-Y offset
    have hx : (latLngToPoint 40 0 3).x - (latLngToPoint 40 60 3).x = -(1024 / 3) := by
      simp only [latLngToPoint]
      rw [hrpow]
      norm_num
    have hy : (latLngToPoint 40 0 3).y - (latLngToPoint 40 60 3).y = 0 := by
      simp only [latLngToPoint]
      ring
    have hsq : ((latLngToPoint 40 0 3).x - (latLngToPoint 40 60 3).x)
          * ((latLngToPoint 40 0 3).x - (latLngToPoint 40 60 3).x)
        + ((latLngToPoint 40 0 3).y - (latLngToPoint 40 60 3).y)
          * ((latLngToPoint 40 0 3).y - (latLngToPoint 40 60 3).y)
        = (1024 / 3) ^ 2 := by
      rw [hx, hy]
      ring
    have hd : ¬ Real.sqrt (((latLngToPoint 40 0 3).x - (latLngToPoint 40 60 3).x)
          * ((latLngToPoint 40 0 3).x - (latLngToPoint 40 60 3).x)
        + ((latLngToPoint 40 0 3).y - (latLngToPoint 40 60 3).y)
          * ((latLngToPoint 40 0 3).y - (latLngToPoint 40 60 3).y)) < 1 := by
      rw [hsq, Real.sqrt_sq (by norm_num : (0 : ℝ) ≤ 1024 / 3)]
      norm_num
    have hD : Real.sqrt (((latLngToPoint 40 0 3).x - (latLngToPoint 40 60 3).x)
          * ((latLngToPoint 40 0 3).x - (latLngToPoint 40 60 3).x)
        + ((latLngToPoint 40 0 3).y - (latLngToPoint 40 60 3).y)
          * ((latLngToPoint 40 0 3).y - (latLngToPoint 40 60 3).y)) ≠ 0 := by
      rw [hsq, Real.sqrt_sq (by norm_num : (0 : ℝ) ≤ 1024 / 3)]
      norm_num
    rw [createCurvedPath_boat _ _ _ _ _ _ _ hd,
      boatPath_controlOffsetY _ _ _ _ _ _ (by norm_num) (by norm_num) hD, hx]
    norm_num
  · -- westbound east-west leg at 40S: negative screen-Y offset
    have hx : (latLngToPoint (-40) 0 3).x - (latLngToPoint (-40) 60 3).x = -(1024 / 3) := by
      simp only [latLngToPoint]
      rw [hrpow]
      norm_num
    have hy : (latLngToPoint (-40) 0 3).y - (latLngToPoint (-40) 60 3).y = 0 := by
      simp only [latLngToPoint]
      ring
    have hsq : ((latLngToPoint (-40) 0 3).x - (latLngToPoint (-40) 60 3).x)
          * ((latLngToPoint (-40) 0 3).x - (latLngToPoint (-40) 60 3).x)
        + ((latLngToPoint (-40) 0 3).y - (latLngToPoint (-40) 60 3).y)
          * ((latLngToPoint (-40) 0 3).y - (latLngToPoint (-40) 60 3).y)
        = (1024 / 3) ^ 2 := by
      rw [hx, hy]
      ring
    have hd : ¬ Real.sqrt (((latLngToPoint (-40) 0 3).x - (latLngToPoint (-40) 60 3).x)
          * ((latLngToPoint (-40) 0 3).x - (latLngToPoint (-40) 60 3).x)
        + ((latLngToPoint (-40) 0 3).y - (latLngToPoint (-40) 60 3).y)
          * ((latLngToPoint (-40) 0 3).y - (latLngToPoint (-40) 60 3).y)) < 1 := by
      rw [hsq, Real.sqrt_sq (by norm_num : (0 : ℝ) ≤ 1024 / 3)]
      norm_num
    have hD : Real.sqrt (((latLngToPoint (-40) 0 3).x - (latLngToPoint (-40) 60 3).x)
          * ((latLngToPoint (-40) 0 3).x - (latLngToPoint (-40) 60 3).x)
        + ((latLngToPoint (-40) 0 3).y - (latLngToPoint (-40) 60 3).y)
          * ((latLngToPoint (-40) 0 3).y - (latLngToPoint (-40) 60 3).y)) ≠ 0 := by
      rw [hsq, Real.sqrt_sq (by norm_num : (0 : ℝ) ≤ 1024 / 3)]
      norm_num
    rw [createCurvedPath_boat _ _ _ _ _ _ _ hd,
      boatPath_controlOffsetY_nonpos_mid _ _ _ _ _ _ (by norm_num) (by norm_num) hD, hx]
    norm_num
  · -- southbound north-south leg from 30N to the equator: negative screen-X offset
    have hs3 : (0 : ℝ) < Real.sqrt 3 := Real.sqrt_pos.mpr (by norm_num)
    have h33 : (3 : ℝ) / Real.sqrt 3 = Real.sqrt 3 := by
      rw [eq_comm, eq_div_iff (ne_of_gt hs3),
        Real.mul_self_sqrt (by norm_num : (0 : ℝ) ≤ 3)]
    have hT : Real.tan (Real.pi / 6) + 1 / Real.cos (Real.pi / 6) = Real.sqrt 3 := by
      rw [Real.tan_pi_div_six, Real.cos_pi_div_six, one_div_div, div_add_div_same,
        show (1 : ℝ) + 2 = 3 by norm_num, h33]
    have hm30 : mercY 30 = (1 - Real.log 3 / 2 / Real.pi) / 2 := by
      unfold mercY
      rw [show (30 : ℝ) * Real.pi / 180 = Real.pi / 6 by ring, hT,
        Real.log_sqrt (by norm_num : (0 : ℝ) ≤ 3)]
    have hlog3 : (0.69 : ℝ) < Real.log 3 := by
      have h2 := Real.log_two_gt_d9
      have h23 : Real.log 2 ≤ Real.log 3 :=
        (Real.log_le_log_iff (by norm_num) (by norm_num)).mpr (by norm_num)
      linarith
    have hdy : (latLngToPoint 0 0 3).y - (latLngToPoint 30 0 3).y
        = 512 * Real.log 3 / Real.pi := by
      simp only [latLngToPoint]
      rw [hm30, mercY_zero, hrpow]
      field_simp
      ring
    have hdypos : (0 : ℝ) < 512 * Real.log 3 / Real.pi :=
      div_pos (by nlinarith) hπ0
    have hdx : (latLngToPoint 0 0 3).x - (latLngToPoint 30 0 3).x = 0 := by
      simp only [latLngToPoint]
      ring
    have hsq : ((latLngToPoint 0 0 3).x - (latLngToPoint 30 0 3).x)
          * ((latLngToPoint 0 0 3).x - (latLngToPoint 30 0 3).x)
        + ((latLngToPoint 0 0 3).y - (latLngToPoint 30 0 3).y)
          * ((latLngToPoint 0 0 3).y - (latLngToPoint 30 0 3).y)
        = (512 * Real.log 3 / Real.pi) ^ 2 := by
      rw [hdx, hdy]
      ring
    have hπ15 : Real.pi < 3.15 := Real.pi_lt_d2
    have hd : ¬ Real.sqrt (((latLngToPoint 0 0 3).x - (latLngToPoint 30 0 3).x)
          * ((latLngToPoint 0 0 3).x - (latLngToPoint 30 0 3).x)
        + ((latLngToPoint 0 0 3).y - (latLngToPoint 30 0 3).y)
          * ((latLngToPoint 0 0 3).y - (latLngToPoint 30 0 3).y)) < 1 := by
      rw [hsq, Real.sqrt_sq (le_of_lt hdypos), not_lt, le_div_iff₀ hπ0]
      nlinarith
    have hD : Real.sqrt (((latLngToPoint 0 0 3).x - (latLngToPoint 30 0 3).x)
          * ((latLngToPoint 0 0 3).x - (latLngToPoint 30 0 3).x)
        + ((latLngToPoint 0 0 3).y - (latLngToPoint 30 0 3).y)
          * ((latLngToPoint 0 0 3).y - (latLngToPoint 30 0 3).y)) ≠ 0 := by
      rw [hsq, Real.sqrt_sq (le_of_lt hdypos)]
      exact ne_of_gt hdypos
    rw [createCurvedPath_boat _ _ _ _ _ _ _ hd,
      boatPath_controlOffsetX_ns _ _ _ _ _ _ (by norm_num) hD, hdy]
    nlinarith

/-- Witness for C5 (amended) on the eastbound leg from (40N, 0) to
(40N, 60E) projected at zoom 3: the perpendicular-Y offset is negative. -/
theorem boat_curve_direction_witness :
    |(60 : ℝ) - 0| > |(40 : ℝ) - 40| ∧ 0 < ((40 : ℝ) + 40) / 2 ∧
    controlOffsetY (createCurvedPath (latLngToPoint 40 0 3) (latLngToPoint 40 60 3)
        false true (some (40, 0, 40, 60))) < 0 := by
  have hrpow : (2 : ℝ) ^ (3 : ℝ) = 8 := by
    rw [show (3 : ℝ) = ((3 : ℕ) : ℝ) by norm_num, Real.rpow_natCast]
    norm_num
  have hx : (latLngToPoint 40 60 3).x - (latLngToPoint 40 0 3).x = 1024 / 3 := by
    simp only [latLngToPoint]
    rw [hrpow]
    norm_num
  have hy : (latLngToPoint 40 60 3).y - (latLngToPoint 40 0 3).y = 0 := by
    simp only [latLngToPoint]
    ring
  have hsq : ((latLngToPoint 40 60 3).x - (latLngToPoint 40 0 3).x)
        * ((latLngToPoint 40 60 3).x - (latLngToPoint 40 0 3).x)
      + ((latLngToPoint 40 60 3).y - (latLngToPoint 40 0 3).y)
        * ((latLngToPoint 40 60 3).y - (latLngToPoint 40 0 3).y)
      = (1024 / 3) ^ 2 := by
    rw [hx, hy]
    ring
  have hd : ¬ Real.sqrt (((latLngToPoint 40 60 3).x - (latLngToPoint 40 0 3).x)
        * ((latLngToPoint 40 60 3).x - (latLngToPoint 40 0 3).x)
      + ((latLngToPoint 40 60 3).y - (latLngToPoint 40 0 3).y)
        * ((latLngToPoint 40 60 3).y - (latLngToPoint 40 0 3).y)) < 1 := by
    rw [hsq, Real.sqrt_sq (by norm_num : (0 : ℝ) ≤ 1024 / 3)]
    norm_num
  have hmain := boat_curve_direction (latLngToPoint 40 0 3) (latLngToPoint 40 60 3)
    false 40 0 40 60 hd
  refine ⟨by norm_num, by norm_num, ?_⟩
  rw [(hmain.2.1 (by norm_num) (by norm_num)).1, hx]
  norm_num

/-- Embedding of `Math.min(...xs)` over a non-empty list (the empty case, excluded by
the callers, is given the junk value 0). -/
noncomputable def listMin : List ℝ → ℝ
  | [] => 0
  | x :: xs => xs.foldl min x

/-- Embedding of `Math.max(...xs)` over a non-empty list. -/
noncomputable def listMax : List ℝ → ℝ
  | [] => 0
  | x :: xs => xs.foldl max x

/-- The candidate-zoom footprint test of `initialView` (part_009 lines
188-216): the bounding box's pixel footprint at `testZoom` — height from
the Mercator y-values, width from the linear longitude map corrected by
`cos(centerLat)` — fits in the container reduced by the 25% padding on
each side. -/
noncomputable def fitsAtZoom (minLat maxLat minLng maxLng centerLat w h : ℝ)
    (testZoom : ℕ) : Prop :=
  let scale := (2 : ℝ) ^ testZoom * 256
  let heightPx := |mercY maxLat * scale - mercY minLat * scale|
  let widthPx := |((maxLng + 180) / 360) * scale - ((minLng + 180) / 360) * scale|
  let adjustedWidthPx := widthPx * Real.cos (centerLat * Real.pi / 180)
  adjustedWidthPx ≤ w * (1 - 0.25 * 2) ∧ heightPx ≤ h * (1 - 0.25 * 2)

/-- The `for (testZoom = 3; testZoom <= 12; testZoom++)` loop of
`initialView`: keep `testZoom` as the running best while it fits, break at
the first non-fitting candidate.  `fuel` bounds the remaining candidates
(10 covers the range 3..12). -/
noncomputable def selectZoom (fits : ℕ → Prop) : ℕ → ℕ → ℕ → ℕ
  | best, _, 0 => best
  | best, z, fuel + 1 =>
    letI : Decidable (fits z) := Classical.propDecidable _
    if fits z then selectZoom fits z (z + 1) fuel else best

/-- The zoom chosen by `initialView`: running best starts at the default
5, candidates are 3..12. -/
noncomputable def bestZoom (fits : ℕ → Prop) : ℕ :=
  selectZoom fits 5 3 10

/-- The result record of `initialView` (part_009 line 219). -/
structure InitialView where
  lat : ℝ
  lng : ℝ
  zoom : ℕ

noncomputable def minLatOf (dests : List LatLng) : ℝ := listMin (dests.map LatLng.lat)

noncomputable def maxLatOf (dests : List LatLng) : ℝ := listMax (dests.map LatLng.lat)

noncomputable def minLngOf (dests : List LatLng) : ℝ := listMin (dests.map LatLng.lng)

noncomputable def maxLngOf (dests : List LatLng) : ℝ := listMax (dests.map LatLng.lng)

/-- The footprint test of `initialView` expressed over the destination
list itself. -/
noncomputable def fitsB (dests : List LatLng) (w h : ℝ) (z : ℕ) : Prop :=
  fitsAtZoom (minLatOf dests) (maxLatOf dests) (minLngOf dests) (maxLngOf dests)
    ((minLatOf dests + maxLatOf dests) / 2) w h z

/-- Embedding of `initialView` (part_009 lines 164-220): the fixed default view for an
empty destination list, otherwise the bounding-box center and the zoom
chosen by the fitting loop. -/
noncomputable def initialView (dests : List LatLng) (w h : ℝ) : InitialView :=
  match dests with
  | [] => ⟨45, 10, 5⟩
  | _ :: _ =>
    ⟨(minLatOf dests + maxLatOf dests) / 2, (minLngOf dests + maxLngOf dests) / 2,
      bestZoom (fitsB dests w h)⟩

lemma selectZoom_pos (fits : ℕ → Prop) (best z fuel : ℕ) (hz : fits z) :
    selectZoom fits best z (fuel + 1) = selectZoom fits z (z + 1) fuel := by
  simp only [selectZoom]
  rw [if_pos hz]

lemma selectZoom_neg (fits : ℕ → Prop) (best z fuel : ℕ) (hz : ¬ fits z) :
    selectZoom fits best z (fuel + 1) = best := by
  simp only [selectZoom]
  rw [if_neg hz]

lemma selectZoom_all_fit (fits : ℕ → Prop) :
    ∀ fuel z best, (∀ k, fits k) → selectZoom fits best z (fuel + 1) = z + fuel := by
  intro fuel
  induction fuel with
  | zero =>
    intro z best hall
    rw [selectZoom_pos fits best z 0 (hall z)]
    simp only [selectZoom]
    omega
  | succ f ih =>
    intro z best hall
    rw [selectZoom_pos fits best z (f + 1) (hall z), ih (z + 1) z hall]
    omega

lemma selectZoom_spec (fits : ℕ → Prop) :
    ∀ fuel z best, fits z →
      fits (selectZoom fits best z (fuel + 1)) ∧
      z ≤ selectZoom fits best z (fuel + 1) ∧
      selectZoom fits best z (fuel + 1) ≤ z + fuel ∧
      (selectZoom fits best z (fuel + 1) = z + fuel ∨
        ¬ fits (selectZoom fits best z (fuel + 1) + 1)) := by
  intro fuel
  induction fuel with
  | zero =>
    intro z best hz
    rw [selectZoom_pos fits best z 0 hz]
    simp only [selectZoom]
    exact ⟨hz, le_refl z, by omega, Or.inl (by omega)⟩
  | succ f ih =>
    intro z best hz
    rw [selectZoom_pos fits best z (f + 1) hz]
    by_cases h1 : fits (z + 1)
    · obtain ⟨ha, hb, hc, hd⟩ := ih (z + 1) z h1
      refine ⟨ha, by omega, by omega, ?_⟩
      rcases hd with hd | hd
      · exact Or.inl (by omega)
      · exact Or.inr hd
    · rw [selectZoom_neg fits z (z + 1) f h1]
      exact ⟨hz, le_refl z, by omega, Or.inr h1⟩

/-- The footprint at `z + 1` is exactly twice the footprint at `z`, so
fitting is downward closed for a nonnegative container. -/
lemma fitsAtZoom_mono (minLat maxLat minLng maxLng centerLat w h : ℝ)
    (hw : 0 ≤ w) (hh : 0 ≤ h) (z : ℕ)
    (hfit : fitsAtZoom minLat maxLat minLng maxLng centerLat w h (z + 1)) :
    fitsAtZoom minLat maxLat minLng maxLng centerLat w h z := by
  simp only [fitsAtZoom] at hfit ⊢
  obtain ⟨h1, h2⟩ := hfit
  have e1 : ∀ a b : ℝ, |a * ((2 : ℝ) ^ (z + 1) * 256) - b * ((2 : ℝ) ^ (z + 1) * 256)|
      = 2 * |a * ((2 : ℝ) ^ z * 256) - b * ((2 : ℝ) ^ z * 256)| := by
    intro a b
    rw [show a * ((2 : ℝ) ^ (z + 1) * 256) - b * ((2 : ℝ) ^ (z + 1) * 256)
        = 2 * (a * ((2 : ℝ) ^ z * 256) - b * ((2 : ℝ) ^ z * 256)) by ring, abs_mul]
    norm_num
  rw [e1] at h2
  rw [e1] at h1
  have hw2 : 0 ≤ w * (1 - 0.25 * 2) := by linarith
  have hh2 : 0 ≤ h * (1 - 0.25 * 2) := by linarith
  constructor
  · nlinarith
  · nlinarith

/-- Downward closure of the footprint test over zoom differences. -/
lemma fitsB_down (dests : List LatLng) (w h : ℝ) (hw : 0 ≤ w) (hh : 0 ≤ h) :
    ∀ n k, fitsB dests w h (k + n) → fitsB dests w h k := by
  intro n
  induction n with
  | zero => intro k h0; exact h0
  | succ n ih =>
    intro k hf
    exact ih k (fitsAtZoom_mono _ _ _ _ _ w h hw hh (k + n) hf)

/-- C4 amended: for a non-empty destination list and a nonnegative
container, provided at least one zoom in [3, 12] fits, `initialView`
selects the highest fitting zoom: its padded footprint fits, and the
next-higher zoom (when the chosen zoom is below 12) does not fit.  (When
no candidate fits, the source instead keeps the initial `bestZoom = 5`,
whose footprint exceeds the container — see the counterexample.) -/
theorem fit_to_bounds_tight (dests : List LatLng) (w h : ℝ)
    (hne : dests ≠ []) (hw : 0 ≤ w) (hh : 0 ≤ h)
    (hex : ∃ z, 3 ≤ z ∧ z ≤ 12 ∧ fitsB dests w h z) :
    fitsB dests w h (initialView dests w h).zoom ∧
    3 ≤ (initialView dests w h).zoom ∧ (initialView dests w h).zoom ≤ 12 ∧
    ((initialView dests w h).zoom = 12 ∨
      ¬ fitsB dests w h ((initialView dests w h).zoom + 1)) := by
  obtain ⟨d, ds, rfl⟩ : ∃ d ds, dests = d :: ds := by
    cases dests with
    | nil => exact absurd rfl hne
    | cons d ds => exact ⟨d, ds, rfl⟩
  obtain ⟨z, hz3, -, hzfit⟩ := hex
  have h3 : fitsB (d :: ds) w h 3 := by
    have hzz : fitsB (d :: ds) w h (3 + (z - 3)) := by
      rw [show 3 + (z - 3) = z by omega]
      exact hzfit
    exact fitsB_down (d :: ds) w h hw hh (z - 3) 3 hzz
  have hzoom : (initialView (d :: ds) w h).zoom
      = selectZoom (fitsB (d :: ds) w h) 5 3 10 := rfl
  rw [hzoom]
  obtain ⟨ha, hb, hc, hd⟩ := selectZoom_spec (fitsB (d :: ds) w h) 9 3 5 h3
  have h12 : (3 : ℕ) + 9 = 12 := rfl
  rw [h12] at hc hd
  refine ⟨ha, hb, hc, ?_⟩
  rcases hd with hd | hd
  · exact Or.inl hd
  · exact Or.inr hd

lemma minLatOf_pair (a b : LatLng) : minLatOf [a, b] = min a.lat b.lat := by
  simp [minLatOf, listMin]

lemma maxLatOf_pair (a b : LatLng) : maxLatOf [a, b] = max a.lat b.lat := by
  simp [maxLatOf, listMax]

lemma minLngOf_pair (a b : LatLng) : minLngOf [a, b] = min a.lng b.lng := by
  simp [minLngOf, listMin]

lemma maxLngOf_pair (a b : LatLng) : maxLngOf [a, b] = max a.lng b.lng := by
  simp [maxLngOf, listMax]

/-- Evaluation of the footprint test on the equatorial full-longitude
bounding box used by the C4 counterexample and witness. -/
lemma fitsAtZoom_flat (w h : ℝ) (z : ℕ) :
    fitsAtZoom 0 0 (-180) 180 0 w h z
      ↔ (2 : ℝ) ^ z * 256 ≤ w * (1 - 0.25 * 2) ∧ 0 ≤ h * (1 - 0.25 * 2) := by
  have hS : (0 : ℝ) ≤ (2 : ℝ) ^ z * 256 := by positivity
  simp only [fitsAtZoom, mercY_zero]
  rw [show (1 / 2 : ℝ) * ((2 : ℝ) ^ z * 256) - 1 / 2 * ((2 : ℝ) ^ z * 256) = 0 by ring,
    abs_zero,
    show (((180 : ℝ) + 180) / 360) * ((2 : ℝ) ^ z * 256)
        - (((-180 : ℝ) + 180) / 360) * ((2 : ℝ) ^ z * 256) = (2 : ℝ) ^ z * 256 by ring,
    abs_of_nonneg hS, zero_mul, zero_div, Real.cos_zero, mul_one]

lemma fitsB_flat (w h : ℝ) (z : ℕ) :
    fitsB [⟨0, -180⟩, ⟨0, 180⟩] w h z
      ↔ (2 : ℝ) ^ z * 256 ≤ w * (1 - 0.25 * 2) ∧ 0 ≤ h * (1 - 0.25 * 2) := by
  have h1 : minLatOf [⟨0, -180⟩, ⟨0, 180⟩] = 0 := by
    rw [minLatOf_pair]
    norm_num
  have h2 : maxLatOf [⟨0, -180⟩, ⟨0, 180⟩] = 0 := by
    rw [maxLatOf_pair]
    norm_num
  have h3 : minLngOf [⟨0, -180⟩, ⟨0, 180⟩] = -180 := by
    rw [minLngOf_pair]
    norm_num
  have h4 : maxLngOf [⟨0, -180⟩, ⟨0, 180⟩] = 180 := by
    rw [maxLngOf_pair]
    norm_num
  unfold fitsB
  rw [h1, h2, h3, h4, show ((0 : ℝ) + 0) / 2 = 0 by norm_num]
  exact fitsAtZoom_flat w h z

/-- C4 counterexample: with destinations spanning the full longitude range
and a 100x100 container, no candidate zoom fits; `initialView` then
returns the initial `bestZoom = 5`, whose padded footprint (8192 px wide
against 50 px available) exceeds the container, contradicting the claim
that the chosen zoom's footprint always fits. -/
theorem fit_to_bounds_counterexample :
    (initialView [⟨0, -180⟩, ⟨0, 180⟩] 100 100).zoom = 5 ∧
    ¬ fitsB [⟨0, -180⟩, ⟨0, 180⟩] 100 100
        ((initialView [⟨0, -180⟩, ⟨0, 180⟩] 100 100).zoom) := by
  have h3 : ¬ fitsB [⟨0, -180⟩, ⟨0, 180⟩] 100 100 3 := by
    rw [fitsB_flat]
    rintro ⟨hcon, -⟩
    norm_num at hcon
  have hzoom : (initialView [⟨0, -180⟩, ⟨0, 180⟩] 100 100).zoom = 5 := by
    have hz : (initialView [⟨0, -180⟩, ⟨0, 180⟩] 100 100).zoom
        = selectZoom (fitsB [⟨0, -180⟩, ⟨0, 180⟩] 100 100) 5 3 10 := rfl
    rw [hz, show (10 : ℕ) = 9 + 1 from rfl,
      selectZoom_neg (fitsB [⟨0, -180⟩, ⟨0, 180⟩] 100 100) 5 3 9 h3]
  refine ⟨hzoom, ?_⟩
  rw [hzoom, fitsB_flat]
  rintro ⟨hcon, -⟩
  norm_num at hcon

/-- Witness for C4 (amended): the same bounding box in a 1000000 px wide
container, where zoom 3 fits. -/
theorem fit_to_bounds_tight_witness :
    (([⟨0, -180⟩, ⟨0, 180⟩] : List LatLng) ≠ [] ∧
      ∃ z, 3 ≤ z ∧ z ≤ 12 ∧ fitsB [⟨0, -180⟩, ⟨0, 180⟩] 1000000 100 z) ∧
    fitsB [⟨0, -180⟩, ⟨0, 180⟩] 1000000 100
        ((initialView [⟨0, -180⟩, ⟨0, 180⟩] 1000000 100).zoom) ∧
    3 ≤ (initialView [⟨0, -180⟩, ⟨0, 180⟩] 1000000 100).zoom ∧
    (initialView [⟨0, -180⟩, ⟨0, 180⟩] 1000000 100).zoom ≤ 12 ∧
    ((initialView [⟨0, -180⟩, ⟨0, 180⟩] 1000000 100).zoom = 12 ∨
      ¬ fitsB [⟨0, -180⟩, ⟨0, 180⟩] 1000000 100
          ((initialView [⟨0, -180⟩, ⟨0, 180⟩] 1000000 100).zoom + 1)) := by
  have hex : ∃ z, 3 ≤ z ∧ z ≤ 12 ∧ fitsB [⟨0, -180⟩, ⟨0, 180⟩] 1000000 100 z := by
    refine ⟨3, le_refl 3, by norm_num, ?_⟩
    rw [fitsB_flat]
    norm_num
  exact ⟨⟨by simp, hex⟩,
    fit_to_bounds_tight [⟨0, -180⟩, ⟨0, 180⟩] 1000000 100 (by simp)
      (by norm_num) (by norm_num) hex⟩

lemma foldl_min_const : ∀ (xs : List ℝ) (x : ℝ), (∀ y ∈ xs, y = x) → xs.foldl min x = x := by
  intro xs
  induction xs with
  | nil => intro x _; rfl
  | cons y ys ih =>
    intro x hx
    have hy : y = x := hx y (List.mem_cons_self y ys)
    rw [List.foldl_cons, hy, min_self]
    exact ih x (fun z hz => hx z (List.mem_cons_of_mem y hz))

lemma foldl_max_const : ∀ (xs : List ℝ) (x : ℝ), (∀ y ∈ xs, y = x) → xs.foldl max x = x := by
  intro xs
  induction xs with
  | nil => intro x _; rfl
  | cons y ys ih =>
    intro x hx
    have hy : y = x := hx y (List.mem_cons_self y ys)
    rw [List.foldl_cons, hy, max_self]
    exact ih x (fun z hz => hx z (List.mem_cons_of_mem y hz))

lemma listMin_allEq (l : List ℝ) (x : ℝ) (hne : l ≠ []) (hall : ∀ y ∈ l, y = x) :
    listMin l = x := by
  cases l with
  | nil => exact absurd rfl hne
  | cons a as =>
    show as.foldl min a = x
    rw [hall a (List.mem_cons_self a as)]
    exact foldl_min_const as x (fun z hz => hall z (List.mem_cons_of_mem a hz))

lemma listMax_allEq (l : List ℝ) (x : ℝ) (hne : l ≠ []) (hall : ∀ y ∈ l, y = x) :
    listMax l = x := by
  cases l with
  | nil => exact absurd rfl hne
  | cons a as =>
    show as.foldl max a = x
    rw [hall a (List.mem_cons_self a as)]
    exact foldl_max_const as x (fun z hz => hall z (List.mem_cons_of_mem a hz))

/-- A zero-size bounding box has zero footprint, so it fits at every
candidate zoom in any nonnegative container. -/
lemma fitsAtZoom_degenerate (lat lng centerLat w h : ℝ)
    (hw : 0 ≤ w) (hh : 0 ≤ h) (z : ℕ) :
    fitsAtZoom lat lat lng lng centerLat w h z := by
  simp only [fitsAtZoom]
  rw [sub_self, sub_self, abs_zero, zero_mul]
  constructor
  · linarith
  · linarith

/-- C7: for a points list containing exactly one distinct point, the
fit-to-bounds zoom-selection loop terminates (the embedding's loop is
structurally bounded, as is the source's `for testZoom <= 12`), and it
terminates at the maximum configured zoom 12, because the degenerate box
fits trivially at every candidate zoom. -/
theorem single_point_fit_max_zoom (l : List LatLng) (p : LatLng) (w h : ℝ)
    (hne : l ≠ []) (hall : ∀ q ∈ l, q = p) (hw : 0 ≤ w) (hh : 0 ≤ h) :
    (initialView l w h).zoom = 12 := by
  have hlatne : l.map LatLng.lat ≠ [] := by
    intro hcon
    exact hne (List.map_eq_nil_iff.mp hcon)
  have hlngne : l.map LatLng.lng ≠ [] := by
    intro hcon
    exact hne (List.map_eq_nil_iff.mp hcon)
  have hminLat : minLatOf l = p.lat := by
    refine listMin_allEq _ _ hlatne ?_
    intro y hy
    obtain ⟨q, hq, rfl⟩ := List.mem_map.mp hy
    rw [hall q hq]
  have hmaxLat : maxLatOf l = p.lat := by
    refine listMax_allEq _ _ hlatne ?_
    intro y hy
    obtain ⟨q, hq, rfl⟩ := List.mem_map.mp hy
    rw [hall q hq]
  have hminLng : minLngOf l = p.lng := by
    refine listMin_allEq _ _ hlngne ?_
    intro y hy
    obtain ⟨q, hq, rfl⟩ := List.mem_map.mp hy
    rw [hall q hq]
  have hmaxLng : maxLngOf l = p.lng := by
    refine listMax_allEq _ _ hlngne ?_
    intro y hy
    obtain ⟨q, hq, rfl⟩ := List.mem_map.mp hy
    rw [hall q hq]
  obtain ⟨d, ds, rfl⟩ : ∃ d ds, l = d :: ds := by
    cases l with
    | nil => exact absurd rfl hne
    | cons d ds => exact ⟨d, ds, rfl⟩
  have hfits : ∀ k, fitsB (d :: ds) w h k := by
    intro k
    unfold fitsB
    rw [hminLat, hmaxLat, hminLng, hmaxLng]
    exact fitsAtZoom_degenerate p.lat p.lng _ w h hw hh k
  have hzoom : (initialView (d :: ds) w h).zoom
      = selectZoom (fitsB (d :: ds) w h) 5 3 10 := rfl
  rw [hzoom, show (10 : ℕ) = 9 + 1 from rfl,
    selectZoom_all_fit (fitsB (d :: ds) w h) 9 3 5 hfits]

/-- Witness for C7 with the single point (0, 0) in a 100x100 container. -/
theorem single_point_fit_max_zoom_witness :
    (([⟨0, 0⟩] : List LatLng) ≠ [] ∧ (∀ q ∈ ([⟨0, 0⟩] : List LatLng), q = ⟨0, 0⟩)) ∧
    (initialView [⟨0, 0⟩] 100 100).zoom = 12 :=
  ⟨⟨by simp, by intro q hq; simpa using hq⟩,
    single_point_fit_max_zoom [⟨0, 0⟩] ⟨0, 0⟩ 100 100 (by simp)
      (by intro q hq; simpa using hq) (by norm_num) (by norm_num)⟩

/-- C10: an empty points list makes the fit-to-bounds computation return
the fixed default view — center (45, 10) with the mid-range default zoom
5 — rather than failing. -/
theorem empty_points_default_view (w h : ℝ) :
    initialView [] w h = ⟨45, 10, 5⟩ := rfl

/-- One entry of the `tiles` array (part_009 lines 254-295): the tile
indices and the screen placement.  The image URL string, which just
interpolates `zoom`, `tileX` and `tileY`, is not modelled. -/
structure TileDescriptor where
  tileX : ℤ
  tileY : ℤ
  left : ℝ
  top : ℝ

/-- The integer loop range `[a, b]` as a list (empty when `b < a`). -/
def intRange (a b : ℤ) : List ℤ :=
  (List.range (b - a + 1).toNat).map (fun i => a + (i : ℤ))

/-- Embedding of `tiles` (part_009 lines 254-295): enumerate a tile neighborhood of the
center tile sized from the container, dropping candidates outside
`[0, 2^zoom)` in either coordinate. -/
noncomputable def tiles (s : MapState) (w h : ℝ) : List TileDescriptor :=
  let scale := (2 : ℝ) ^ s.zoom
  let centerTileX := ⌊((s.center.lng + 180) / 360) * scale⌋
  let centerTileY := ⌊mercY s.center.lat * scale⌋
  let centerPoint := latLngToPoint s.center.lat s.center.lng s.zoom
  let nX : ℤ := ⌊(((⌈w / 256⌉ : ℤ) + 2 : ℤ) : ℝ) / 2⌋
  let nY : ℤ := ⌊(((⌈h / 256⌉ : ℤ) + 2 : ℤ) : ℝ) / 2⌋
  (intRange (-nX) nX).flatMap (fun dx =>
    (intRange (-nY) nY).filterMap (fun dy =>
      let tileX := centerTileX + dx
      let tileY := centerTileY + dy
      if tileX < 0 ∨ scale ≤ (tileX : ℝ) ∨ tileY < 0 ∨ scale ≤ (tileY : ℝ) then none
      else some ⟨tileX, tileY, (tileX : ℝ) * 256 - centerPoint.x + w / 2,
        (tileY : ℝ) * 256 - centerPoint.y + h / 2⟩))

/-- C8: every tile descriptor produced by the visible-tiles enumeration
satisfies `0 ≤ tileX < 2^zoom` and `0 ≤ tileY < 2^zoom`, for every
viewport state and container size; out-of-range candidates are dropped
with no wraparound.  At zoom 3 in particular, `2^zoom = 8`, so no index
outside `[0, 8)` is ever returned. -/
theorem tiles_in_range (s : MapState) (w h : ℝ) :
    (tiles s w h).Forall (fun t =>
      0 ≤ t.tileX ∧ (t.tileX : ℝ) < (2 : ℝ) ^ s.zoom ∧
      0 ≤ t.tileY ∧ (t.tileY : ℝ) < (2 : ℝ) ^ s.zoom) := by
  rw [List.forall_iff_forall_mem]
  intro t ht
  simp only [tiles, List.mem_flatMap, List.mem_filterMap] at ht
  obtain ⟨dx, -, dy, -, hsome⟩ := ht
  by_cases hc : ⌊((s.center.lng + 180) / 360) * (2 : ℝ) ^ s.zoom⌋ + dx < 0 ∨
      (2 : ℝ) ^ s.zoom ≤ ((⌊((s.center.lng + 180) / 360) * (2 : ℝ) ^ s.zoom⌋ + dx : ℤ) : ℝ) ∨
      ⌊mercY s.center.lat * (2 : ℝ) ^ s.zoom⌋ + dy < 0 ∨
      (2 : ℝ) ^ s.zoom ≤ ((⌊mercY s.center.lat * (2 : ℝ) ^ s.zoom⌋ + dy : ℤ) : ℝ)
  · rw [if_pos hc] at hsome
    exact absurd hsome (by simp)
  · rw [if_neg hc] at hsome
    push_neg at hc
    obtain ⟨h1, h2, h3, h4⟩ := hc
    obtain rfl : (⟨⌊((s.center.lng + 180) / 360) * (2 : ℝ) ^ s.zoom⌋ + dx,
        ⌊mercY s.center.lat * (2 : ℝ) ^ s.zoom⌋ + dy,
        ((⌊((s.center.lng + 180) / 360) * (2 : ℝ) ^ s.zoom⌋ + dx : ℤ) : ℝ) * 256
          - (latLngToPoint s.center.lat s.center.lng s.zoom).x + w / 2,
        ((⌊mercY s.center.lat * (2 : ℝ) ^ s.zoom⌋ + dy : ℤ) : ℝ) * 256
          - (latLngToPoint s.center.lat s.center.lng s.zoom).y + h / 2⟩ : TileDescriptor) = t :=
      Option.some.inj hsome
    refine ⟨?_, h2, ?_, h4⟩
    · show (0 : ℤ) ≤ ⌊((s.center.lng + 180) / 360) * (2 : ℝ) ^ s.zoom⌋ + dx
      omega
    · show (0 : ℤ) ≤ ⌊mercY s.center.lat * (2 : ℝ) ^ s.zoom⌋ + dy
      omega

end Tripz
